import Mathlib

/-!
Verification development for the OCRSenseiWeb server tools
(`src/server/image-splitter.py` and `src/server/ocr-service.py`).

The image-surface operations (decode, crop, PNG encode, OpenCV transforms)
and the Tesseract engine are external collaborators: they are abstracted
away, and fallible stages are modelled as `Except` values supplied to the
embedded control flow.  Geometry, configuration merging, confidence
arithmetic, consensus selection, chunk merging and the CLI exit-status
logic are embedded directly from the Python source.

Numeric conventions: Python integers are `Int` (or `Nat` where the source
guarantees non-negative values and uses only non-negative arithmetic);
`math.ceil(a / b)` on exact integer ratios is `ceilPyDiv`; Python float
comparisons of integer ratios (`max/min > threshold`) are embedded in the
exact cross-multiplied integer form, which agrees with the float form on
the magnitudes involved; a rational-valued version is kept alongside and
related to the executable form by a lemma.
-/

/-! ## Geometry of the splitter (`image-splitter.py`, `split_image`) -/

/-- Python `math.ceil(a / b)` for integers with `b > 0`:
the exact ceiling of the ratio, via `⌈a/b⌉ = -⌊-a/b⌋`.
(`Int.ediv` is floor division for a positive divisor.) -/
def ceilPyDiv (a b : Int) : Int := -(-a / b)

/-- A tile rectangle `(x0, y0, x1, y1)` as built by `split_image`
(`box = (x_offset, y_offset, x_offset + current_tile_width,
y_offset + current_tile_height)`).  The base64 pixel payload and the
grid position carried alongside are external to the geometry. -/
structure TileBox where
  x0 : Int
  y0 : Int
  x1 : Int
  y1 : Int
deriving DecidableEq, Repr

/-- The `split_mode` string of `split_image` (`'grid'`, `'vertical'`,
`'horizontal'`), with `nosplit` for the early `should_split: False` return. -/
inductive SplitMode where
  | nosplit
  | grid
  | vertical
  | horizontal
deriving DecidableEq, Repr

/-- The geometric content of `split_image`'s result: `should_split`,
`split_mode`, and the list of tile boxes in production order. -/
structure SplitPlan where
  should_split : Bool
  mode : SplitMode
  tiles : List TileBox
deriving DecidableEq, Repr

/-- The splitter's aspect test `max(width, height) / min(width, height) >
aspect_threshold` (line 46/50 of `image-splitter.py`), in cross-multiplied
integer form (exact for `min > 0`; the source divides floats, exact on the
sizes involved; PIL guarantees `width, height ≥ 1`). -/
def splitAspectExceeds (width height thr : Int) : Bool :=
  decide (thr * min width height < max width height)

/-- Rational-valued aspect quotient of the splitter, the exact value of the
source's `max(width, height) / min(width, height)` (for `min > 0`). -/
def splitAspectValue (width height : Int) : ℚ :=
  (max width height : ℚ) / (min width height : ℚ)

/-- The geometry computed by `split_image` (`image-splitter.py` lines
45-191): the split decision, the mode selection (2-D grid if both
dimensions exceed, vertical strips if only height exceeds, otherwise
horizontal strips), and the tile boxes, with per-tile shrink
`current_tile_size = min(tile_size, dimension - offset)` and tile count
`1 + ceil(max(0, dimension - tile_size) / step)` per axis. -/
def splitImageGeom (width height max_width max_height overlap thr : Int) : SplitPlan :=
  if decide (max_width < width) || decide (max_height < height) || splitAspectExceeds width height thr then
    if max_width < width ∧ max_height < height then
      -- Both dimensions exceed - use 2D grid splitting
      let x_step := max_width - overlap
      let y_step := max_height - overlap
      let num_cols := (1 + ceilPyDiv (max 0 (width - max_width)) x_step).toNat
      let num_rows := (1 + ceilPyDiv (max 0 (height - max_height)) y_step).toNat
      let tiles := (List.range num_rows).flatMap fun (row : Nat) =>
        (List.range num_cols).map fun (col : Nat) =>
          let y_offset := (row : Int) * y_step
          let x_offset := (col : Int) * x_step
          { x0 := x_offset, y0 := y_offset,
            x1 := x_offset + min max_width (width - x_offset),
            y1 := y_offset + min max_height (height - y_offset) }
      ⟨true, .grid, tiles⟩
    else if max_height < height then
      -- Only height exceeds - vertical strips (top to bottom)
      let y_step := max_height - overlap
      let num_tiles := (1 + ceilPyDiv (max 0 (height - max_height)) y_step).toNat
      let tiles := (List.range num_tiles).map fun (i : Nat) =>
        let y_offset := (i : Int) * y_step
        { x0 := 0, y0 := y_offset, x1 := width,
          y1 := y_offset + min max_height (height - y_offset) }
      ⟨true, .vertical, tiles⟩
    else
      -- Only width exceeds - horizontal strips (left to right)
      let x_step := max_width - overlap
      let num_tiles := (1 + ceilPyDiv (max 0 (width - max_width)) x_step).toNat
      let tiles := (List.range num_tiles).map fun (i : Nat) =>
        let x_offset := (i : Int) * x_step
        { x0 := x_offset, y0 := 0,
          x1 := x_offset + min max_width (width - x_offset), y1 := height }
      ⟨true, .horizontal, tiles⟩
  else
    ⟨false, .nosplit, []⟩

/-! ## Geometry of the chunker (`ocr-service.py`, `create_image_chunks`) -/

/-- One chunk record of `create_image_chunks`: the crop rectangle is
`(x_offset, y_offset, x_end, y_end)` with `x_end = min(x + chunk_width,
width)` and `y_end = min(y + chunk_height, height)`; the reported chunk
width and height are `x_end - x_offset` and `y_end - y_offset`. -/
structure ChunkBox where
  x_offset : Nat
  y_offset : Nat
  x_end : Nat
  y_end : Nat
deriving DecidableEq, Repr

/-- The offsets visited by the `while x < dim: ...; x += step` loops of
`create_image_chunks`, starting from `x`.  Embedded with explicit fuel so
that the definition is structural; `dim` steps of fuel always suffice when
`step ≥ 1` (the source loops forever when `step ≤ 0`, which its fixed call
site `2550/3300` with overlap `100` never produces; fuel exhaustion and a
zero step both yield `[]`). -/
def whileStartsAux (step : Nat) : Nat → Nat → Nat → List Nat
  | 0, _, _ => []
  | fuel + 1, dim, x =>
    if 0 < step ∧ x < dim then x :: whileStartsAux step fuel dim (x + step) else []

/-- Offsets `0, step, 2*step, ...` strictly below `dim`, as visited by the
chunking loops of `create_image_chunks`. -/
def whileStarts (dim step : Nat) : List Nat := whileStartsAux step dim dim 0

/-- The geometry computed by `create_image_chunks` (`ocr-service.py` lines
63-109): row-major overlapping chunks with `x_step = chunk_width - overlap`
and `y_step = chunk_height - overlap`. -/
def createChunksGeom (width height chunk_width chunk_height overlap : Nat) : List ChunkBox :=
  let x_step := chunk_width - overlap
  let y_step := chunk_height - overlap
  (whileStarts height y_step).flatMap fun y =>
    (whileStarts width x_step).map fun x =>
      { x_offset := x, y_offset := y,
        x_end := min (x + chunk_width) width,
        y_end := min (y + chunk_height) height }

/-! ## Chunking decision (`ocr-service.py`, `needs_chunking`) -/

/-- The `aspect_ratio` value of `needs_chunking` (line 42):
`max(width / height, height / width) if min(width, height) > 0 else 1`,
as an exact rational (the source computes it in floating point). -/
def chunkAspectValue (width height : Int) : ℚ :=
  if 0 < min width height then
    max ((width : ℚ) / (height : ℚ)) ((height : ℚ) / (width : ℚ))
  else 1

/-- Executable form of the comparison `aspect_ratio > 5` in
`needs_chunking`, cross-multiplied to stay in integers: when
`min(width, height) > 0` the quotient test is exact, and when
`min(width, height) ≤ 0` the source compares the sentinel `1 > 5`,
which is false.  `chunkAspectGtFive_eq_value` relates the two forms. -/
def chunkAspectGtFive (width height : Int) : Bool :=
  if 0 < min width height then decide (5 * min width height < max width height)
  else false

/-- `needs_chunking` (`ocr-service.py` lines 24-43): chunk when a dimension
exceeds its maximum or the aspect ratio exceeds 5. -/
def needsChunking (width height max_chunk_width max_chunk_height : Int) : Bool :=
  decide (max_chunk_width < width) || decide (max_chunk_height < height) ||
    chunkAspectGtFive width height

/-! ## OCR configuration (`ocr-service.py`, `process_image` lines 500-523,
`apply_performance_preset` lines 254-276) -/

/-- The effective OCR configuration dictionary (all keys of
`default_config`). -/
structure OCRConfig where
  oem : Int
  psm1 : Int
  psm2 : Int
  preprocessing : Bool
  upscale : Bool
  denoise : Bool
  deskew : Bool
  performancePreset : String
  enableCache : Bool
  maxWidth : Int
  maxHeight : Int
deriving DecidableEq, Repr

/-- `default_config` of `process_image` (lines 501-513). -/
def default_config : OCRConfig :=
  { oem := 1, psm1 := 6, psm2 := 3, preprocessing := true, upscale := true,
    denoise := true, deskew := true, performancePreset := "balanced",
    enableCache := true, maxWidth := 2000, maxHeight := 3000 }

/-- The caller-supplied configuration document: each recognized key is
either absent or explicitly set.  (Unrecognized keys are ignored by the
source and are not modelled.) -/
structure UserConfig where
  oem : Option Int := none
  psm1 : Option Int := none
  psm2 : Option Int := none
  preprocessing : Option Bool := none
  upscale : Option Bool := none
  denoise : Option Bool := none
  deskew : Option Bool := none
  performancePreset : Option String := none
  enableCache : Option Bool := none
  maxWidth : Option Int := none
  maxHeight : Option Int := none
deriving DecidableEq, Repr

/-- `default_config.update(config)` (line 517): every key the caller sets
replaces the default. -/
def updateConfig (d : OCRConfig) (u : UserConfig) : OCRConfig :=
  { oem := u.oem.getD d.oem, psm1 := u.psm1.getD d.psm1,
    psm2 := u.psm2.getD d.psm2,
    preprocessing := u.preprocessing.getD d.preprocessing,
    upscale := u.upscale.getD d.upscale, denoise := u.denoise.getD d.denoise,
    deskew := u.deskew.getD d.deskew,
    performancePreset := u.performancePreset.getD d.performancePreset,
    enableCache := u.enableCache.getD d.enableCache,
    maxWidth := u.maxWidth.getD d.maxWidth,
    maxHeight := u.maxHeight.getD d.maxHeight }

/-- `apply_performance_preset` (lines 254-276). -/
def apply_performance_preset (cfg : OCRConfig) (preset : String) : OCRConfig :=
  if preset = "fast" then
    { cfg with upscale := false, denoise := false, deskew := false,
               psm2 := cfg.psm1 }
  else if preset = "balanced" then
    { cfg with upscale := true, denoise := false, deskew := false }
  else if preset = "accurate" then
    { cfg with upscale := true, denoise := true, deskew := true }
  else cfg

/-- Configuration construction in `process_image` (lines 515-523): merge
the caller's document over the defaults, then apply the performance preset
if the merged value is truthy (a non-empty string). -/
def buildConfig (user : UserConfig) : OCRConfig :=
  let cfg := updateConfig default_config user
  if cfg.performancePreset ≠ "" then
    apply_performance_preset cfg cfg.performancePreset
  else cfg

/-! ## Recognition passes (`ocr-service.py`, `run_tesseract_pass` lines
278-291) -/

/-- The parallel arrays of `pytesseract.image_to_data(..., Output.DICT)`
that the source reads: `text`, `conf`, `left`, `top`, `width`, `height`
(confidences as integer values; the source's `int(conf)` conversion and
its string sentinel test are reflected in `avgConfidence`). -/
structure TessData where
  text : List String
  conf : List Int
  left : List Int
  top : List Int
  width : List Int
  height : List Int
deriving DecidableEq, Repr

/-- Lines 284-285: `conf_values = [int(conf) for conf in data['conf'] if
conf != '-1' and int(conf) > 0]`, then `sum // len` when non-empty else 0.
(Integer floor division; the operands are non-negative.) -/
def avgConfidence (conf : List Int) : Int :=
  let conf_values := conf.filter fun c => decide (c ≠ -1) && decide (0 < c)
  if conf_values.length ≠ 0 then conf_values.sum / (conf_values.length : Int)
  else 0

/-- The specification's formulation of the confidence computation, for
comparison with `avgConfidence`: the mean of exactly the per-token
confidence values strictly greater than zero, and 0 when no token has
positive confidence. -/
def specMeanPositiveConf (conf : List Int) : Int :=
  let pos := conf.filter fun c => decide (0 < c)
  if pos.length ≠ 0 then pos.sum / (pos.length : Int) else 0

/-- Raw engine output of one Tesseract invocation: the data dictionary and
the `image_to_string` text.  The engine is external; its output is an
input to the embedding. -/
structure PassRaw where
  data : TessData
  text : String
deriving Repr

/-- Result record of `run_tesseract_pass`. -/
structure PassResult where
  data : TessData
  text : String
  confidence : Int
deriving Repr

/-- `run_tesseract_pass` (lines 278-291), given the engine's raw output. -/
def run_tesseract_pass (raw : PassRaw) : PassResult :=
  { data := raw.data, text := raw.text, confidence := avgConfidence raw.data.conf }

/-- A bounding box of the output (`bounding_boxes` entries). -/
structure BBox where
  text : String
  confidence : Int
  x : Int
  y : Int
  width : Int
  height : Int
deriving DecidableEq, Repr

/-- Bounding-box extraction with offset re-basing (`process_single_chunk`
lines 363-376; the single-pass path, lines 635-648, is the same loop with
zero offsets): keep index `i` iff `int(conf[i]) > 0`.  The source indexes
the parallel arrays directly (equal lengths are guaranteed by the engine);
`getD` with a default models that total lookup. -/
def extractBoxes (data : TessData) (x_offset y_offset : Int) : List BBox :=
  (List.range data.text.length).filterMap fun i =>
    if 0 < data.conf.getD i 0 then
      some { text := data.text.getD i "", confidence := data.conf.getD i 0,
             x := data.left.getD i 0 + x_offset, y := data.top.getD i 0 + y_offset,
             width := data.width.getD i 0, height := data.height.getD i 0 }
    else none

/-! ## Per-chunk processing (`ocr-service.py`, `process_single_chunk`
lines 293-407) -/

/-- The per-chunk result dictionary of `process_single_chunk`. -/
structure ChunkRes where
  pytesseract_text : String
  pytesseract_conf : Int
  easyocr_text : String
  easyocr_conf : Int
  consensus_conf : Int
  bounding_boxes : List BBox
  source : String
deriving Repr

/-- The dictionary returned by the `except` handler of
`process_single_chunk` (lines 392-400). -/
def emptyChunkRes : ChunkRes :=
  { pytesseract_text := "", pytesseract_conf := 0, easyocr_text := "",
    easyocr_conf := 0, consensus_conf := 0, bounding_boxes := [],
    source := "error" }

/-- `process_single_chunk` (lines 293-407).  The fallible stages inside its
`try` block (temp-file save, preprocessing, engine invocations) are
abstracted into one `Except` input carrying the two raw pass outputs on
success; any exception takes the `except` path and yields `emptyChunkRes`.
On success: dual passes when `psm1 != psm2` with the higher (ties: first)
average confidence winning, otherwise a single pass copied to both sides;
bounding boxes come from the winning pass, re-based by the chunk offset. -/
def process_single_chunk (cfg : OCRConfig)
    (outcome : Except String (PassRaw × PassRaw))
    (x_offset y_offset : Int) : ChunkRes :=
  match outcome with
  | .error _ => emptyChunkRes
  | .ok (raw1, raw2) =>
    let result1 := run_tesseract_pass raw1
    -- Fast mode (`psm1 == psm2`) skips the second engine invocation and
    -- copies the first result (lines 352-361).
    let result2 := if cfg.psm1 ≠ cfg.psm2 then run_tesseract_pass raw2 else result1
    let best_result :=
      if result1.confidence ≥ result2.confidence then result1 else result2
    let consensus_source :=
      if result1.confidence ≥ result2.confidence then "pytesseract_config1"
      else "pytesseract_config2"
    { pytesseract_text := result1.text.trim,
      pytesseract_conf := result1.confidence,
      easyocr_text := result2.text.trim,
      easyocr_conf := result2.confidence,
      consensus_conf := best_result.confidence,
      bounding_boxes := extractBoxes best_result.data x_offset y_offset,
      source := consensus_source }

/-! ## Chunk merging (`ocr-service.py`, `merge_chunk_results` lines
409-475) -/

/-- A chunk is kept for aggregation iff either stripped text is non-empty
(lines 430-433). -/
def chunkHasText (c : ChunkRes) : Bool :=
  !(c.pytesseract_text.trim == "") || !(c.easyocr_text.trim == "")

/-- The merged dictionary returned by `merge_chunk_results`
(the source also computes an average consensus confidence that it never
returns; it is not modelled). -/
structure MergedRes where
  success : Bool
  pytesseract_text : String
  pytesseract_confidence : Int
  easyocr_text : String
  easyocr_confidence : Int
  consensus_text : String
  consensus_source : String
  bounding_boxes : List BBox
  chunk_count : Nat
deriving Repr

/-- `merge_chunk_results` (lines 409-475): drop chunks with no text,
concatenate the remaining texts in order with newlines, average the
per-chunk confidences over the kept chunks (integer mean of means),
concatenate bounding boxes, and pick the consensus side by the merged
averages (ties favor the first configuration). -/
def merge_chunk_results (chunk_results : List ChunkRes) : MergedRes :=
  let valid := chunk_results.filter chunkHasText
  let pytesseract_parts := valid.filterMap fun c =>
    if c.pytesseract_text.trim ≠ "" then some c.pytesseract_text.trim else none
  let easyocr_parts := valid.filterMap fun c =>
    if c.easyocr_text.trim ≠ "" then some c.easyocr_text.trim else none
  let all_bboxes := (valid.map ChunkRes.bounding_boxes).flatten
  let valid_chunks := valid.length
  let avg_pytesseract_conf :=
    if 0 < valid_chunks then
      (valid.map ChunkRes.pytesseract_conf).sum / (valid_chunks : Int)
    else 0
  let avg_easyocr_conf :=
    if 0 < valid_chunks then
      (valid.map ChunkRes.easyocr_conf).sum / (valid_chunks : Int)
    else 0
  let merged_pytesseract := String.intercalate "\n" pytesseract_parts
  let merged_easyocr := String.intercalate "\n" easyocr_parts
  let consensus_text :=
    if avg_pytesseract_conf ≥ avg_easyocr_conf then merged_pytesseract
    else merged_easyocr
  let consensus_source :=
    if avg_pytesseract_conf ≥ avg_easyocr_conf then "pytesseract_config1"
    else "pytesseract_config2"
  { success := true, pytesseract_text := merged_pytesseract,
    pytesseract_confidence := avg_pytesseract_conf,
    easyocr_text := merged_easyocr, easyocr_confidence := avg_easyocr_conf,
    consensus_text := consensus_text,
    consensus_source := "chunked_processing_" ++ consensus_source,
    bounding_boxes := all_bboxes, chunk_count := valid_chunks }

/-! ## Pipeline orchestration (`ocr-service.py`, `process_image` lines
477-667) -/

/-- One entry of the chunk list handed to the per-chunk loop (lines
543-551): the tile's global offsets and the abstracted outcome of its
fallible processing stages. -/
structure ChunkInput where
  outcome : Except String (PassRaw × PassRaw)
  x_offset : Int
  y_offset : Int

/-- The top-level result document of `process_image`.  Absent keys of the
failure dictionary are the defaults. -/
structure DocResult where
  success : Bool
  pytesseract_text : String := ""
  pytesseract_confidence : Int := 0
  easyocr_text : String := ""
  easyocr_confidence : Int := 0
  consensus_text : String := ""
  consensus_source : String := ""
  bounding_boxes : List BBox := []
  error : String := ""
deriving Repr

/-- The external effects of one `process_image` run: the result of opening
the image (dimensions on success), the chunk list produced by
`create_image_chunks` (empty on chunking failure, per its own handler),
and the abstracted outcome of the single-pass stages (smart resize,
preprocessing, recognition) whose exceptions reach the top-level handler. -/
structure PipelineEnv where
  openResult : Except String (Int × Int)
  chunkPlan : List ChunkInput
  singleRecognize : Except String (PassRaw × PassRaw)

/-- The single-pass branch of `process_image` (lines 568-661): dual passes
when `psm1 != psm2` (otherwise the second result is a copy of the first),
consensus by average confidence with ties to the first configuration,
bounding boxes from the winning data with zero offsets.  An exception in
these stages reaches the top-level handler (lines 663-667). -/
def singlePassModel (cfg : OCRConfig)
    (rec : Except String (PassRaw × PassRaw)) : DocResult :=
  match rec with
  | .error e => { success := false, error := e }
  | .ok (raw1, raw2) =>
    let result1 := run_tesseract_pass raw1
    let result2 := if cfg.psm1 ≠ cfg.psm2 then run_tesseract_pass raw2 else result1
    let best := if result1.confidence ≥ result2.confidence then result1 else result2
    let consensus_source :=
      if result1.confidence ≥ result2.confidence then "pytesseract_config1"
      else "pytesseract_config2"
    { success := true, pytesseract_text := result1.text.trim,
      pytesseract_confidence := result1.confidence,
      easyocr_text := result2.text.trim,
      easyocr_confidence := result2.confidence,
      consensus_text := best.text.trim,
      consensus_source := consensus_source,
      bounding_boxes := extractBoxes best.data 0 0 }

/-- The per-chunk loop and merge of the chunked branch (lines 542-566):
every chunk goes through `process_single_chunk`, the results are merged,
and the merged fields are copied into the document. -/
def chunkedModel (cfg : OCRConfig) (chunks : List ChunkInput) : DocResult :=
  let merged := merge_chunk_results
    (chunks.map fun c => process_single_chunk cfg c.outcome c.x_offset c.y_offset)
  { success := merged.success, pytesseract_text := merged.pytesseract_text,
    pytesseract_confidence := merged.pytesseract_confidence,
    easyocr_text := merged.easyocr_text,
    easyocr_confidence := merged.easyocr_confidence,
    consensus_text := merged.consensus_text,
    consensus_source := merged.consensus_source,
    bounding_boxes := merged.bounding_boxes }

/-- `process_image` (lines 477-667): build the effective configuration,
open the image (failure reaches the top-level handler), decide chunking on
the original dimensions with the fixed thresholds 2550x3300, chunk when
needed unless chunk creation produced nothing (then fall through to the
single-pass branch), otherwise process single-pass. -/
def process_image (user : UserConfig) (env : PipelineEnv) : DocResult :=
  let cfg := buildConfig user
  match env.openResult with
  | .error e => { success := false, error := e }
  | .ok (w, h) =>
    if needsChunking w h 2550 3300 then
      match env.chunkPlan with
      | [] => singlePassModel cfg env.singleRecognize
      | c :: cs => chunkedModel cfg (c :: cs)
    else
      singlePassModel cfg env.singleRecognize

/-! ## CLI entry points (`ocr-service.py` lines 669-690,
`image-splitter.py` lines 201-210) -/

/-- What a tool writes before exiting: a structured JSON document with a
`success` flag, or an uncaught-exception traceback (no JSON document). -/
inductive MainOut where
  | json (success : Bool)
  | crash
deriving DecidableEq, Repr

/-- `ocr-service.py` `__main__` (lines 669-690): exit 1 on a missing
image-path argument, a missing file, or invalid JSON configuration;
otherwise print `process_image`'s document and exit 0. -/
def ocrServiceMain (argc : Nat) (fileExists : Bool) (configParses : Bool)
    (result : DocResult) : Nat × MainOut :=
  if argc < 2 then (1, .json false)
  else if !fileExists then (1, .json false)
  else if 3 ≤ argc ∧ ¬configParses then (1, .json false)
  else (0, .json result.success)

/-- The success flag of `split_image`'s result: its `try` block wraps
`Image.open`, so an open failure (including a missing file) is caught and
reported as `success: False`; after a successful open the geometry and
encoding succeed (encoding is external and not modelled as fallible). -/
def splitImageSuccess (openResult : Except String (Int × Int)) : Bool :=
  match openResult with
  | .error _ => false
  | .ok _ => true

/-- `image-splitter.py` `__main__` (lines 201-210): exit 1 on a missing
image-path argument; a malformed JSON configuration raises out of
`json.loads` uncaught (non-zero exit, no JSON output); otherwise print
`split_image`'s document - whose `success` flag is false when the file
cannot be opened - and exit 0.  There is no file-existence check. -/
def imageSplitterMain (argc : Nat) (openResult : Except String (Int × Int))
    (configParses : Bool) : Nat × MainOut :=
  if argc < 2 then (1, .json false)
  else if 2 < argc ∧ ¬configParses then (1, .crash)
  else (0, .json (splitImageSuccess openResult))

/-! ## Relating the executable aspect tests to the rational quotients -/

/-- Cross-multiplication agrees with the rational quotient comparison. -/
lemma cross_mul_ratio_iff (M m t : Int) (hm : 0 < m) :
    t * m < M ↔ (t : ℚ) < (M : ℚ) / (m : ℚ) := by
  rw [lt_div_iff₀ (by exact_mod_cast hm)]
  exact_mod_cast Iff.rfl

/-- The splitter's executable aspect test equals the comparison of the
exact rational quotient with the threshold (for positive dimensions). -/
lemma splitAspectExceeds_eq_value (w h thr : Int) (hmin : 0 < min w h) :
    splitAspectExceeds w h thr = decide ((thr : ℚ) < splitAspectValue w h) := by
  unfold splitAspectExceeds splitAspectValue
  have hiff := cross_mul_ratio_iff (max w h) (min w h) thr hmin
  push_cast at hiff
  exact decide_eq_decide.mpr hiff

/-- The chunker's executable aspect test equals the comparison of the
exact rational `aspect_ratio` value with 5. -/
lemma chunkAspectGtFive_eq_value (w h : Int) :
    chunkAspectGtFive w h = decide ((5 : ℚ) < chunkAspectValue w h) := by
  unfold chunkAspectGtFive chunkAspectValue
  by_cases hmin : 0 < min w h
  · rw [if_pos hmin, if_pos hmin]
    have hw : (0 : Int) < w := by omega
    have hh : (0 : Int) < h := by omega
    have hwq : (0 : ℚ) < (w : ℚ) := by exact_mod_cast hw
    have hhq : (0 : ℚ) < (h : ℚ) := by exact_mod_cast hh
    have hval : max ((w : ℚ) / (h : ℚ)) ((h : ℚ) / (w : ℚ)) =
        max (w : ℚ) (h : ℚ) / min (w : ℚ) (h : ℚ) := by
      rcases le_total w h with hwh | hwh
      · have hq : (w : ℚ) ≤ (h : ℚ) := by exact_mod_cast hwh
        have hd : (w : ℚ) / (h : ℚ) ≤ (h : ℚ) / (w : ℚ) := by
          rw [div_le_div_iff₀ hhq hwq]; nlinarith
        rw [max_eq_right hd, max_eq_right hq, min_eq_left hq]
      · have hq : (h : ℚ) ≤ (w : ℚ) := by exact_mod_cast hwh
        have hd : (h : ℚ) / (w : ℚ) ≤ (w : ℚ) / (h : ℚ) := by
          rw [div_le_div_iff₀ hwq hhq]; nlinarith
        rw [max_eq_left hd, max_eq_left hq, min_eq_right hq]
    rw [hval]
    have hiff := cross_mul_ratio_iff (max w h) (min w h) 5 hmin
    push_cast at hiff
    exact decide_eq_decide.mpr hiff
  · rw [if_neg hmin, if_neg hmin]
    symm
    rw [decide_eq_false_iff_not]
    norm_num

/-! ## C5: mean confidence over strictly positive tokens -/

/-- C5: for every recognition pass, the reported confidence is the integer
mean of exactly the per-token confidence values strictly greater than zero
(the source's additional string-sentinel test excludes nothing further),
and a pass with no positively-confident tokens reports confidence 0. -/
theorem C5_confidence_mean_positive (conf : List Int) :
    avgConfidence conf = specMeanPositiveConf conf ∧
    (conf.filter (fun c => decide (0 < c)) = [] → avgConfidence conf = 0) := by
  have hfe : (conf.filter fun c => decide (c ≠ -1) && decide (0 < c)) =
      conf.filter fun c => decide (0 < c) := by
    apply List.filter_congr
    intro x _
    by_cases hx : 0 < x
    · simp [hx]; omega
    · simp [hx]
  constructor
  · simp only [avgConfidence, specMeanPositiveConf, hfe]
  · intro hnil
    simp only [avgConfidence, hfe, hnil]
    simp

/-- Witness for C5 at concrete token lists: a mixed list and a list with no
positively-confident token. -/
theorem C5_confidence_mean_positive_witness :
    avgConfidence [80, -1, 0, 91] = specMeanPositiveConf [80, -1, 0, 91] ∧
    (([-1, 0] : List Int).filter (fun c => decide (0 < c)) = [] ∧
      avgConfidence [-1, 0] = 0) :=
  ⟨(C5_confidence_mean_positive [80, -1, 0, 91]).1,
   by decide, (C5_confidence_mean_positive [-1, 0]).2 (by decide)⟩

/-! ## C10: totality of the chunking decision -/

/-- C10: `needs_chunking` is total over all integer dimensions: when
`min(width, height) ≤ 0` the aspect ratio is defined to be 1 (no division
is performed), the aspect test is false, and the chunking decision reduces
to the two absolute dimension checks. -/
theorem C10_needs_chunking_total (w h mw mh : Int) (hmin : min w h ≤ 0) :
    chunkAspectValue w h = 1 ∧
    chunkAspectGtFive w h = false ∧
    needsChunking w h mw mh = (decide (mw < w) || decide (mh < h)) := by
  have h1 : ¬(0 < min w h) := by omega
  refine ⟨?_, ?_, ?_⟩
  · simp [chunkAspectValue, h1]
  · simp [chunkAspectGtFive, h1]
  · simp [needsChunking, chunkAspectGtFive, h1]

/-- Witness for C10 at a degenerate size (width 0). -/
theorem C10_needs_chunking_total_witness :
    min (0 : Int) 7 ≤ 0 ∧
    (chunkAspectValue 0 7 = 1 ∧ chunkAspectGtFive 0 7 = false ∧
      needsChunking 0 7 2550 3300 = (decide ((2550 : Int) < 0) || decide ((3300 : Int) < 7))) :=
  ⟨by decide, C10_needs_chunking_total 0 7 2550 3300 (by decide)⟩

/-! ## C1: configuration merge order -/

/-- C1 counterexample: the caller explicitly sets `denoise := true`
(resp. `psm2 := 11` under the `fast` preset), yet the preset overlay -
applied by `process_image` after the explicit overrides - forces
`denoise = false` (resp. `psm2 = psm1 = 6`).  The explicitly set field
does not win, falsifying the claimed "defaults, then preset, then
explicit overrides" order. -/
theorem C1_counterexample :
    (buildConfig { denoise := some true }).denoise = false ∧
    (buildConfig { performancePreset := some "fast", psm2 := some 11 }).psm2 = 6 := by
  decide

/-- C1 (amended): the effective configuration is built as defaults, then
the caller's explicit overrides, then the performance-preset overlay, so
for every configuration document a field assigned by the active preset
takes the preset's value (overriding the caller), while fields the preset
does not assign keep the caller's explicit value (or the default). -/
theorem C1_preset_overrides_explicit (u : UserConfig) :
    ((updateConfig default_config u).performancePreset = "fast" →
      buildConfig u = { updateConfig default_config u with
        upscale := false, denoise := false, deskew := false,
        psm2 := (updateConfig default_config u).psm1 }) ∧
    ((updateConfig default_config u).performancePreset = "balanced" →
      buildConfig u = { updateConfig default_config u with
        upscale := true, denoise := false, deskew := false }) ∧
    ((updateConfig default_config u).performancePreset = "accurate" →
      buildConfig u = { updateConfig default_config u with
        upscale := true, denoise := true, deskew := true }) ∧
    ((updateConfig default_config u).performancePreset = "" →
      buildConfig u = updateConfig default_config u) ∧
    (buildConfig u).oem = u.oem.getD 1 ∧
    (buildConfig u).psm1 = u.psm1.getD 6 ∧
    (buildConfig u).preprocessing = u.preprocessing.getD true ∧
    (buildConfig u).enableCache = u.enableCache.getD true := by
  refine ⟨fun hp => ?_, fun hp => ?_, fun hp => ?_, fun hp => ?_, ?_, ?_, ?_, ?_⟩
  · simp [buildConfig, apply_performance_preset, hp]
  · simp [buildConfig, apply_performance_preset, hp]
  · simp [buildConfig, apply_performance_preset, hp]
  · simp [buildConfig, hp]
  all_goals
    simp only [buildConfig, apply_performance_preset]
    split_ifs <;> simp [updateConfig, default_config]

/-- Witness for C1 (amended) at a document that explicitly sets `denoise`
(merged preset is the default `balanced`). -/
theorem C1_preset_overrides_explicit_witness :
    (updateConfig default_config { denoise := some true }).performancePreset = "balanced" ∧
    buildConfig { denoise := some true } =
      { updateConfig default_config { denoise := some true } with
        upscale := true, denoise := false, deskew := false } :=
  ⟨by decide,
   (C1_preset_overrides_explicit { denoise := some true }).2.1 (by decide)⟩

/-! ## C2: the 5100x3300 scenario -/

/-- C2 counterexample: for a 5100x3300 image with the default splitter
configuration the formula `1 + ceil((5100-2550)/2450)` yields 3 tiles, not
2, and the second tile's x-offset is `1 * 2450 = 2450` - the code never
clamps offsets to `dimension - tile_size = 2550`. -/
theorem C2_counterexample :
    (splitImageGeom 5100 3300 2550 3300 100 5).tiles.length = 3 ∧
    (splitImageGeom 5100 3300 2550 3300 100 5).tiles.length ≠ 2 ∧
    (splitImageGeom 5100 3300 2550 3300 100 5).tiles[1]?.map TileBox.x0 = some 2450 ∧
    (splitImageGeom 5100 3300 2550 3300 100 5).tiles[1]?.map TileBox.x0 ≠ some 2550 := by
  decide

/-- C2 (amended): for a 5100x3300 image with `max_width = 2550`,
`max_height = 3300`, `overlap = 100`, the splitter selects horizontal mode
(width exceeds, height does not) with step 2450 and produces exactly 3
tiles at x-offsets 0, 2450, 4900; the offsets are never clamped, and the
final tile instead shrinks to width 200 so that its far edge lands exactly
on the image boundary 5100. -/
theorem C2_scenario_5100x3300 :
    splitImageGeom 5100 3300 2550 3300 100 5 =
      { should_split := true, mode := .horizontal,
        tiles := [{ x0 := 0, y0 := 0, x1 := 2550, y1 := 3300 },
                  { x0 := 2450, y0 := 0, x1 := 5000, y1 := 3300 },
                  { x0 := 4900, y0 := 0, x1 := 5100, y1 := 3300 }] } := by
  decide

/-! ## C4: orientation under an aspect-only split -/

/-- C4 counterexample: a 100x1000 image (height is the larger dimension,
neither dimension exceeds its maximum, aspect ratio 10 > 5) splits in
horizontal mode, not the claimed vertical mode. -/
theorem C4_counterexample :
    (100 : Int) ≤ 2550 ∧ (1000 : Int) ≤ 3300 ∧ (100 : Int) < 1000 ∧
    (splitImageGeom 100 1000 2550 3300 100 5).should_split = true ∧
    (splitImageGeom 100 1000 2550 3300 100 5).mode ≠ .vertical ∧
    (splitImageGeom 100 1000 2550 3300 100 5).mode = .horizontal := by
  decide

/-- C4 (amended): whenever splitting is triggered with neither dimension
exceeding its maximum (i.e. only the aspect-ratio threshold fires), the
splitter always takes the horizontal branch regardless of which dimension
is larger, and - since the width fits in one tile - produces a single tile
equal to the full image. -/
theorem C4_aspect_only_horizontal (w h mw mh ov thr : Int)
    (hw : w ≤ mw) (hh : h ≤ mh)
    (hsplit : (splitImageGeom w h mw mh ov thr).should_split = true) :
    (splitImageGeom w h mw mh ov thr).mode = .horizontal ∧
    (splitImageGeom w h mw mh ov thr).tiles =
      [{ x0 := 0, y0 := 0, x1 := w, y1 := h }] := by
  unfold splitImageGeom at hsplit ⊢
  by_cases hc : (decide (mw < w) || decide (mh < h) || splitAspectExceeds w h thr) = true
  · rw [if_pos hc]
    rw [if_neg (by omega : ¬(mw < w ∧ mh < h)), if_neg (by omega : ¬ mh < h)]
    have hmax : max 0 (w - mw) = 0 := by omega
    have hmin : min mw w = w := min_eq_right hw
    have hr1 : List.range 1 = [0] := rfl
    refine ⟨rfl, ?_⟩
    simp only [hmax, ceilPyDiv, neg_zero, Int.zero_ediv]
    norm_num [hr1, hmin]
  · rw [if_neg hc] at hsplit
    simp at hsplit

/-- Witness for C4 (amended) at the 100x1000 aspect-only instance. -/
theorem C4_aspect_only_horizontal_witness :
    (splitImageGeom 100 1000 2550 3300 100 5).mode = .horizontal ∧
    (splitImageGeom 100 1000 2550 3300 100 5).tiles =
      [{ x0 := 0, y0 := 0, x1 := 100, y1 := 1000 }] :=
  C4_aspect_only_horizontal 100 1000 2550 3300 100 5
    (by decide) (by decide) (by decide)

/-! ## C7: exit statuses of the two CLI tools -/

/-- C7 counterexample: invoking the splitter on a file that cannot be
opened (e.g. a nonexistent path) exits with status 0 and a
`success: false` document - the splitter has no file-existence check, so
the claimed non-zero exit for a missing target file is false for that
tool. -/
theorem C7_counterexample :
    imageSplitterMain 2 (.error "File not found: missing.png") true =
      (0, .json false) ∧
    (imageSplitterMain 2 (.error "File not found: missing.png") true).1 = 0 := by
  exact ⟨rfl, rfl⟩

/-- C7 (amended): both tools exit non-zero when the image-path argument is
missing and when configuration parsing fails; the OCR tool also exits
non-zero when the target file does not exist, while the splitter reports
an unopenable (e.g. missing) file as a `success: false` document with exit
status 0; with valid arguments both tools print their processing
function's structured document and exit 0, so runtime failures inside
processing surface as `success: false` with exit status 0. -/
theorem C7_exit_status (argc : Nat) (fe cp : Bool) (res : DocResult)
    (openR : Except String (Int × Int)) (e : String) :
    (argc < 2 → (ocrServiceMain argc fe cp res).1 = 1 ∧
      (imageSplitterMain argc openR cp).1 = 1) ∧
    (2 ≤ argc → (ocrServiceMain argc false cp res).1 = 1) ∧
    (3 ≤ argc → (ocrServiceMain argc fe false res).1 = 1 ∧
      (imageSplitterMain argc openR false).1 = 1) ∧
    (2 ≤ argc → (3 ≤ argc → cp = true) →
      ocrServiceMain argc true cp res = (0, .json res.success)) ∧
    (2 ≤ argc → (2 < argc → cp = true) →
      imageSplitterMain argc (.error e) cp = (0, .json false)) ∧
    (2 ≤ argc → (2 < argc → cp = true) →
      imageSplitterMain argc openR cp = (0, .json (splitImageSuccess openR))) := by
  refine ⟨fun h1 => ?_, fun h2 => ?_, fun h3 => ?_,
          fun h4 hcp => ?_, fun h5 hcp => ?_, fun h6 hcp => ?_⟩
  · constructor <;> simp [ocrServiceMain, imageSplitterMain, h1]
  · have hn : ¬ argc < 2 := by omega
    simp [ocrServiceMain, hn]
  · have hn : ¬ argc < 2 := by omega
    constructor
    · rcases fe with _ | _ <;> simp [ocrServiceMain, hn, h3]
    · have h4 : 2 < argc := by omega
      simp [imageSplitterMain, hn, h4]
  · have hn : ¬ argc < 2 := by omega
    by_cases ha : 3 ≤ argc
    · simp [ocrServiceMain, hn, hcp ha]
    · have hna : ¬ 3 ≤ argc := ha
      simp [ocrServiceMain, hn, hna]
  · have hn : ¬ argc < 2 := by omega
    by_cases ha : 2 < argc
    · simp [imageSplitterMain, splitImageSuccess, hn, hcp ha]
    · simp [imageSplitterMain, splitImageSuccess, hn, ha]
  · have hn : ¬ argc < 2 := by omega
    by_cases ha : 2 < argc
    · simp [imageSplitterMain, hn, hcp ha]
    · simp [imageSplitterMain, hn, ha]

/-- Witness for C7 (amended) at concrete invocations: one missing-argument
call per tool, a missing file for the OCR tool, a processing failure
surfacing as exit 0 for the OCR tool, and a missing file for the
splitter. -/
theorem C7_exit_status_witness :
    ((ocrServiceMain 1 true true { success := true }).1 = 1 ∧
      (imageSplitterMain 1 (.ok (10, 10)) true).1 = 1) ∧
    (ocrServiceMain 2 false true { success := true }).1 = 1 ∧
    ((ocrServiceMain 3 true false { success := true }).1 = 1 ∧
      (imageSplitterMain 3 (.ok (10, 10)) false).1 = 1) ∧
    ocrServiceMain 2 true true { success := false } = (0, .json false) ∧
    imageSplitterMain 2 (.error "File not found") true = (0, .json false) :=
  ⟨(C7_exit_status 1 true true { success := true } (.ok (10, 10)) "x").1 (by omega),
   (C7_exit_status 2 false true { success := true } (.ok (10, 10)) "x").2.1 (by omega),
   (C7_exit_status 3 true false { success := true } (.ok (10, 10)) "x").2.2.1 (by omega),
   (C7_exit_status 2 true true { success := false } (.ok (10, 10)) "x").2.2.2.1
     (by omega) (by omega),
   (C7_exit_status 2 true true { success := false } (.error "File not found") "File not found").2.2.2.2.1
     (by omega) (by omega)⟩

/-! ## C6: per-tile failure isolation -/

/-- `merge_chunk_results` always reports success (the failure taxonomy
never reaches it). -/
lemma merge_chunk_results_success (rs : List ChunkRes) :
    (merge_chunk_results rs).success = true := rfl

/-- The chunked branch always reports success. -/
lemma chunkedModel_success (cfg : OCRConfig) (chunks : List ChunkInput) :
    (chunkedModel cfg chunks).success = true := rfl

/-- C6: during chunked processing, a tile whose processing stages raise is
caught per-tile: it contributes exactly the empty chunk result (empty
texts, zero confidences, empty box list), every other tile's result is
still computed by `process_single_chunk`, and the merged document still
reports success. -/
theorem C6_per_tile_isolation (cfg : OCRConfig) (tiles : List ChunkInput)
    (i : Nat) (t : ChunkInput) (e : String)
    (hi : tiles[i]? = some t) (he : t.outcome = .error e) :
    (tiles.map fun c => process_single_chunk cfg c.outcome c.x_offset c.y_offset)[i]? =
      some emptyChunkRes ∧
    (∀ (j : Nat) (u : ChunkInput), tiles[j]? = some u →
      (tiles.map fun c => process_single_chunk cfg c.outcome c.x_offset c.y_offset)[j]? =
        some (process_single_chunk cfg u.outcome u.x_offset u.y_offset)) ∧
    (chunkedModel cfg tiles).success = true := by
  refine ⟨?_, ?_, chunkedModel_success cfg tiles⟩
  · rw [List.getElem?_map, hi]
    simp [process_single_chunk, he]
  · intro j u hj
    rw [List.getElem?_map, hj]
    rfl

/-- Witness for C6 at a concrete two-tile run whose first tile fails. -/
theorem C6_per_tile_isolation_witness :
    (([{ outcome := .error "cannot identify image file", x_offset := 0, y_offset := 0 },
       { outcome := .ok (⟨⟨["ok"], [90], [1], [2], [3], [4]⟩, "ok"⟩,
                         ⟨⟨[], [], [], [], [], []⟩, ""⟩), x_offset := 2450, y_offset := 0 }] :
      List ChunkInput).map fun c =>
        process_single_chunk (buildConfig {}) c.outcome c.x_offset c.y_offset)[0]? =
      some emptyChunkRes ∧
    (chunkedModel (buildConfig {})
      [{ outcome := .error "cannot identify image file", x_offset := 0, y_offset := 0 },
       { outcome := .ok (⟨⟨["ok"], [90], [1], [2], [3], [4]⟩, "ok"⟩,
                         ⟨⟨[], [], [], [], [], []⟩, ""⟩), x_offset := 2450, y_offset := 0 }]).success = true :=
  ⟨(C6_per_tile_isolation (buildConfig {})
      [{ outcome := .error "cannot identify image file", x_offset := 0, y_offset := 0 },
       { outcome := .ok (⟨⟨["ok"], [90], [1], [2], [3], [4]⟩, "ok"⟩,
                         ⟨⟨[], [], [], [], [], []⟩, ""⟩), x_offset := 2450, y_offset := 0 }]
      0 { outcome := .error "cannot identify image file", x_offset := 0, y_offset := 0 }
      "cannot identify image file" rfl rfl).1,
   (C6_per_tile_isolation (buildConfig {})
      [{ outcome := .error "cannot identify image file", x_offset := 0, y_offset := 0 },
       { outcome := .ok (⟨⟨["ok"], [90], [1], [2], [3], [4]⟩, "ok"⟩,
                         ⟨⟨[], [], [], [], [], []⟩, ""⟩), x_offset := 2450, y_offset := 0 }]
      0 { outcome := .error "cannot identify image file", x_offset := 0, y_offset := 0 }
      "cannot identify image file" rfl rfl).2.2⟩

/-! ## C9: fallback when chunk creation yields nothing -/

/-- C9: when chunking is required but `create_image_chunks` fails or
yields an empty list, `process_image` falls through to the single-pass
path; a chunk-planning failure alone never yields `success = false` (the
document fails only if the single-pass stages themselves fail). -/
theorem C9_chunk_failure_fallback (user : UserConfig) (env : PipelineEnv) (w h : Int)
    (ho : env.openResult = .ok (w, h))
    (hc : needsChunking w h 2550 3300 = true)
    (hp : env.chunkPlan = []) :
    process_image user env = singlePassModel (buildConfig user) env.singleRecognize ∧
    (∀ p, env.singleRecognize = .ok p → (process_image user env).success = true) := by
  have hmain : process_image user env =
      singlePassModel (buildConfig user) env.singleRecognize := by
    unfold process_image
    rw [ho]
    simp only [hc, hp, if_true]
  refine ⟨hmain, fun p hrec => ?_⟩
  rw [hmain, hrec]
  rcases p with ⟨raw1, raw2⟩
  rfl

/-- Witness for C9: a 6000x100 image (needs chunking), an empty chunk
plan, and successful single-pass stages. -/
theorem C9_chunk_failure_fallback_witness :
    process_image {}
        { openResult := .ok (6000, 100), chunkPlan := [],
          singleRecognize := .ok (⟨⟨["hi"], [80], [3], [4], [10], [12]⟩, "hi"⟩,
                                  ⟨⟨[], [], [], [], [], []⟩, ""⟩) } =
      singlePassModel (buildConfig {})
        (.ok (⟨⟨["hi"], [80], [3], [4], [10], [12]⟩, "hi"⟩,
              ⟨⟨[], [], [], [], [], []⟩, ""⟩)) ∧
    (process_image {}
        { openResult := .ok (6000, 100), chunkPlan := [],
          singleRecognize := .ok (⟨⟨["hi"], [80], [3], [4], [10], [12]⟩, "hi"⟩,
                                  ⟨⟨[], [], [], [], [], []⟩, ""⟩) }).success = true :=
  ⟨(C9_chunk_failure_fallback {} _ 6000 100 rfl (by decide) rfl).1,
   (C9_chunk_failure_fallback {} _ 6000 100 rfl (by decide) rfl).2 _ rfl⟩

/-! ## C8: every output bounding box has positive confidence -/

/-- Every box produced by the extraction loop passes the `conf > 0`
filter. -/
lemma extractBoxes_pos {data : TessData} {xo yo : Int} {b : BBox}
    (hb : b ∈ extractBoxes data xo yo) : 0 < b.confidence := by
  unfold extractBoxes at hb
  obtain ⟨i, _, hf⟩ := List.mem_filterMap.mp hb
  by_cases hc : 0 < data.conf.getD i 0
  · rw [if_pos hc] at hf
    simp only [Option.some.injEq] at hf
    subst hf
    exact hc
  · rw [if_neg hc] at hf
    cases hf

/-- Every box of a per-chunk result has positive confidence (the failure
path has no boxes at all). -/
lemma process_single_chunk_boxes_pos (cfg : OCRConfig)
    (o : Except String (PassRaw × PassRaw)) (xo yo : Int) {b : BBox}
    (hb : b ∈ (process_single_chunk cfg o xo yo).bounding_boxes) :
    0 < b.confidence := by
  rcases o with e | ⟨raw1, raw2⟩
  · simp [process_single_chunk, emptyChunkRes] at hb
  · simp only [process_single_chunk] at hb
    exact extractBoxes_pos hb

/-- Every box of the merged result comes from one of the chunk results. -/
lemma merge_chunk_results_boxes_mem {b : BBox} {rs : List ChunkRes}
    (hb : b ∈ (merge_chunk_results rs).bounding_boxes) :
    ∃ c ∈ rs, b ∈ c.bounding_boxes := by
  simp only [merge_chunk_results] at hb
  obtain ⟨s, hs, hbs⟩ := List.mem_flatten.mp hb
  obtain ⟨c, hc, rfl⟩ := List.mem_map.mp hs
  exact ⟨c, List.mem_of_mem_filter hc, hbs⟩

/-- Every box of the single-pass document has positive confidence. -/
lemma singlePassModel_boxes_pos (cfg : OCRConfig)
    (rec : Except String (PassRaw × PassRaw)) {b : BBox}
    (hb : b ∈ (singlePassModel cfg rec).bounding_boxes) : 0 < b.confidence := by
  rcases rec with e | ⟨raw1, raw2⟩
  · simp [singlePassModel] at hb
  · simp only [singlePassModel] at hb
    exact extractBoxes_pos hb

/-- C8: every bounding box in the final output of `process_image`, on both
the single-pass and the chunked path, has confidence strictly greater than
zero - tokens reported with zero or negative confidence are omitted. -/
theorem C8_boxes_positive_confidence (user : UserConfig) (env : PipelineEnv)
    (b : BBox) (hb : b ∈ (process_image user env).bounding_boxes) :
    0 < b.confidence := by
  unfold process_image at hb
  rcases henv : env.openResult with e | ⟨w, h⟩
  · rw [henv] at hb
    simp at hb
  · rw [henv] at hb
    by_cases hc : needsChunking w h 2550 3300
    · simp only [hc, if_true] at hb
      rcases hplan : env.chunkPlan with _ | ⟨c, cs⟩
      · rw [hplan] at hb
        exact singlePassModel_boxes_pos _ _ hb
      · rw [hplan] at hb
        simp only [chunkedModel] at hb
        obtain ⟨ch, hch, hbch⟩ := merge_chunk_results_boxes_mem hb
        obtain ⟨ci, _, rfl⟩ := List.mem_map.mp hch
        exact process_single_chunk_boxes_pos _ _ _ _ hbch
    · simp only [hc, if_false] at hb
      exact singlePassModel_boxes_pos _ _ hb

/-- Witness for C8 at a concrete single-pass run producing one box of
confidence 80. -/
theorem C8_boxes_positive_confidence_witness :
    ({ text := "hi", confidence := 80, x := 3, y := 4,
       width := 10, height := 12 } : BBox) ∈
      (process_image {}
        { openResult := .ok (100, 100), chunkPlan := [],
          singleRecognize := .ok (⟨⟨["hi"], [80], [3], [4], [10], [12]⟩, "hi"⟩,
                                  ⟨⟨[], [], [], [], [], []⟩, ""⟩) }).bounding_boxes ∧
    (0 : Int) <
      ({ text := "hi", confidence := 80, x := 3, y := 4,
         width := 10, height := 12 } : BBox).confidence :=
  ⟨by decide,
   C8_boxes_positive_confidence {}
     { openResult := .ok (100, 100), chunkPlan := [],
       singleRecognize := .ok (⟨⟨["hi"], [80], [3], [4], [10], [12]⟩, "hi"⟩,
                               ⟨⟨[], [], [], [], [], []⟩, ""⟩) }
     { text := "hi", confidence := 80, x := 3, y := 4, width := 10, height := 12 }
     (by decide)⟩

/-! ## C3: strip coverage and overlap -/

/-- Ceiling division bounds: for a positive divisor, `ceilPyDiv a b * b`
lies in `[a, a + b)`. -/
lemma ceilPyDiv_bounds (a b : Int) (hb : 0 < b) :
    a ≤ ceilPyDiv a b * b ∧ ceilPyDiv a b * b < a + b := by
  have h0 := Int.ediv_add_emod (-a) b
  have h1 := Int.emod_nonneg (-a) (by omega : b ≠ 0)
  have h2 := Int.emod_lt_of_pos (-a) hb
  have key : ceilPyDiv a b * b = a + (-a) % b := by
    unfold ceilPyDiv
    linear_combination -h0
  constructor
  · rw [key]; linarith
  · rw [key]; linarith

/-- Ceiling division of a non-negative numerator is non-negative. -/
lemma ceilPyDiv_nonneg (a b : Int) (ha : 0 ≤ a) (hb : 0 < b) :
    0 ≤ ceilPyDiv a b := by
  by_contra hneg
  push_neg at hneg
  have hbd := (ceilPyDiv_bounds a b hb).1
  have hle : ceilPyDiv a b * b ≤ (-1) * b :=
    mul_le_mul_of_nonneg_right (by omega) (by omega)
  linarith

/-- All tiles before the last are full-size: for `i + 1 < count`, the tile
starting at `i * step` still has `tileSz` pixels of image to its right. -/
lemma strip_full_tiles (dim tileSz ov : Int) (hov : 0 ≤ ov) (hto : ov < tileSz)
    (i : Nat)
    (hi : (i : Int) + 1 < 1 + ceilPyDiv (max 0 (dim - tileSz)) (tileSz - ov)) :
    (i : Int) * (tileSz - ov) + tileSz ≤ dim := by
  have hs : 0 < tileSz - ov := by omega
  have hb := ceilPyDiv_bounds (max 0 (dim - tileSz)) (tileSz - ov) hs
  have hic : (i : Int) ≤ ceilPyDiv (max 0 (dim - tileSz)) (tileSz - ov) - 1 := by omega
  have h1 : (i : Int) * (tileSz - ov) ≤
      (ceilPyDiv (max 0 (dim - tileSz)) (tileSz - ov) - 1) * (tileSz - ov) :=
    mul_le_mul_of_nonneg_right hic (by omega)
  have h2 : (ceilPyDiv (max 0 (dim - tileSz)) (tileSz - ov) - 1) * (tileSz - ov) =
      ceilPyDiv (max 0 (dim - tileSz)) (tileSz - ov) * (tileSz - ov) - (tileSz - ov) := by
    ring
  rcases le_total (dim - tileSz) 0 with hd | hd
  · have hm : max 0 (dim - tileSz) = 0 := by omega
    have hc1 : ceilPyDiv (max 0 (dim - tileSz)) (tileSz - ov) ≤ 0 := by
      by_contra hcpos
      push_neg at hcpos
      have hone : 1 * (tileSz - ov) ≤
          ceilPyDiv (max 0 (dim - tileSz)) (tileSz - ov) * (tileSz - ov) :=
        mul_le_mul_of_nonneg_right (by omega) (by omega)
      linarith [hb.2, hm]
    have hge : (0 : Int) ≤ (i : Int) := Int.natCast_nonneg i
    linarith
  · have hm : max 0 (dim - tileSz) = dim - tileSz := by omega
    linarith [hb.2, hm]

/-- The last tile's remaining span fits inside one tile size. -/
lemma strip_last_fits (dim tileSz ov : Int) (hov : 0 ≤ ov) (hto : ov < tileSz) :
    dim - ceilPyDiv (max 0 (dim - tileSz)) (tileSz - ov) * (tileSz - ov) ≤ tileSz := by
  have hs : 0 < tileSz - ov := by omega
  have hb := (ceilPyDiv_bounds (max 0 (dim - tileSz)) (tileSz - ov) hs).1
  have hmx : dim - tileSz ≤ max 0 (dim - tileSz) := le_max_right _ _
  linarith

/-- A chained family of spans starting at 0 and reaching `g (n-1)` covers
every point below `g (n-1)`. -/
lemma chain_covers (f g : Nat → Int) :
    ∀ (n : Nat), 0 < n → f 0 = 0 → (∀ i, i + 1 < n → f (i + 1) ≤ g i) →
      ∀ p : Int, 0 ≤ p → p < g (n - 1) → ∃ i, i < n ∧ f i ≤ p ∧ p < g i := by
  intro n
  induction n with
  | zero => omega
  | succ m ih =>
    intro _ h0 hchain p hp0 hpl
    rcases Nat.eq_zero_or_pos m with hm | hm
    · subst hm
      exact ⟨0, Nat.one_pos, by rw [h0]; exact hp0, by simpa using hpl⟩
    · by_cases hfm : f m ≤ p
      · exact ⟨m, Nat.lt_succ_self m, hfm, by simpa using hpl⟩
      · push_neg at hfm
        have hgm : p < g (m - 1) := by
          have hch := hchain (m - 1) (by omega)
          have hm1 : m - 1 + 1 = m := by omega
          rw [hm1] at hch
          linarith
        obtain ⟨i, hi, hf, hg⟩ := ih hm h0 (fun i hii => hchain i (by omega)) p hp0 hgm
        exact ⟨i, by omega, hf, hg⟩

/-- Index-level facts for a strip split of `split_image` along one axis:
at least one tile; consecutive tiles abut with exactly `ov` pixels of
overlap; and every point of `[0, dim)` lies in some tile's span. -/
lemma strip_index_props (dim tileSz ov : Int) (hov : 0 ≤ ov) (hto : ov < tileSz) :
    1 ≤ (1 + ceilPyDiv (max 0 (dim - tileSz)) (tileSz - ov)).toNat ∧
    (∀ i : Nat, i + 1 < (1 + ceilPyDiv (max 0 (dim - tileSz)) (tileSz - ov)).toNat →
      ((i : Int) + 1) * (tileSz - ov) ≤
        (i : Int) * (tileSz - ov) + min tileSz (dim - (i : Int) * (tileSz - ov)) ∧
      (i : Int) * (tileSz - ov) + min tileSz (dim - (i : Int) * (tileSz - ov)) -
        ((i : Int) + 1) * (tileSz - ov) = ov) ∧
    (∀ p : Int, 0 ≤ p → p < dim →
      ∃ i : Nat, i < (1 + ceilPyDiv (max 0 (dim - tileSz)) (tileSz - ov)).toNat ∧
        (i : Int) * (tileSz - ov) ≤ p ∧
        p < (i : Int) * (tileSz - ov) + min tileSz (dim - (i : Int) * (tileSz - ov))) := by
  have hs : 0 < tileSz - ov := by omega
  have hc0 : 0 ≤ ceilPyDiv (max 0 (dim - tileSz)) (tileSz - ov) :=
    ceilPyDiv_nonneg _ _ (le_max_left _ _) hs
  have hn : (((1 + ceilPyDiv (max 0 (dim - tileSz)) (tileSz - ov)).toNat : Nat) : Int) =
      1 + ceilPyDiv (max 0 (dim - tileSz)) (tileSz - ov) := by omega
  have hfull : ∀ i : Nat,
      i + 1 < (1 + ceilPyDiv (max 0 (dim - tileSz)) (tileSz - ov)).toNat →
      (i : Int) * (tileSz - ov) + tileSz ≤ dim := by
    intro i hi
    apply strip_full_tiles dim tileSz ov hov hto i
    have hcast : ((i + 1 : Nat) : Int) <
        (((1 + ceilPyDiv (max 0 (dim - tileSz)) (tileSz - ov)).toNat : Nat) : Int) := by
      exact_mod_cast hi
    push_cast at hcast
    omega
  have hchain : ∀ i : Nat,
      i + 1 < (1 + ceilPyDiv (max 0 (dim - tileSz)) (tileSz - ov)).toNat →
      ((i : Int) + 1) * (tileSz - ov) ≤
        (i : Int) * (tileSz - ov) + min tileSz (dim - (i : Int) * (tileSz - ov)) ∧
      (i : Int) * (tileSz - ov) + min tileSz (dim - (i : Int) * (tileSz - ov)) -
        ((i : Int) + 1) * (tileSz - ov) = ov := by
    intro i hi
    have hfl := hfull i hi
    have hmin : min tileSz (dim - (i : Int) * (tileSz - ov)) = tileSz :=
      min_eq_left (by linarith)
    rw [hmin]
    have hexp : ((i : Int) + 1) * (tileSz - ov) =
        (i : Int) * (tileSz - ov) + (tileSz - ov) := by ring
    constructor
    · linarith
    · linarith
  refine ⟨by omega, hchain, ?_⟩
  intro p hp0 hpd
  have hlast : ((((1 + ceilPyDiv (max 0 (dim - tileSz)) (tileSz - ov)).toNat - 1 : Nat)) : Int) =
      ceilPyDiv (max 0 (dim - tileSz)) (tileSz - ov) := by omega
  have hcov := chain_covers
    (fun i : Nat => (i : Int) * (tileSz - ov))
    (fun i : Nat => (i : Int) * (tileSz - ov) +
      min tileSz (dim - (i : Int) * (tileSz - ov)))
    ((1 + ceilPyDiv (max 0 (dim - tileSz)) (tileSz - ov)).toNat)
    (by omega) (by simp)
    (fun i hi => (hchain i hi).1) p hp0 ?_
  · exact hcov
  · show p < (((1 + ceilPyDiv (max 0 (dim - tileSz)) (tileSz - ov)).toNat - 1 : Nat) : Int) *
      (tileSz - ov) + min tileSz (dim -
        (((1 + ceilPyDiv (max 0 (dim - tileSz)) (tileSz - ov)).toNat - 1 : Nat) : Int) *
        (tileSz - ov))
    rw [hlast]
    have hfit := strip_last_fits dim tileSz ov hov hto
    rw [min_eq_right (by linarith)]
    linarith

/-- A loop starting at or past the boundary (or with a zero step) visits
nothing. -/
lemma whileStartsAux_nil (step fuel dim x : Nat) (hx : ¬(0 < step ∧ x < dim)) :
    whileStartsAux step fuel dim x = [] := by
  cases fuel with
  | zero => rfl
  | succ f => simp only [whileStartsAux, if_neg hx]

/-- The `i`-th visited offset is `x + i * step`. -/
lemma whileStartsAux_getElem (step fuel dim x : Nat) :
    ∀ (i : Nat) (hi : i < (whileStartsAux step fuel dim x).length),
      (whileStartsAux step fuel dim x)[i] = x + i * step := by
  induction fuel generalizing x with
  | zero => intro i hi; simp [whileStartsAux] at hi
  | succ f ih =>
    intro i hi
    by_cases hx : 0 < step ∧ x < dim
    · simp only [whileStartsAux, if_pos hx] at hi ⊢
      cases i with
      | zero => simp
      | succ j =>
        simp only [List.length_cons] at hi
        have hj := ih (x + step) j (by omega)
        simp only [List.getElem_cons_succ, hj]
        ring
    · rw [whileStartsAux_nil step (f + 1) dim x hx] at hi
      simp at hi

/-- Every visited offset is strictly inside the image. -/
lemma whileStartsAux_mem_lt (step fuel dim x : Nat) :
    ∀ y ∈ whileStartsAux step fuel dim x, y < dim := by
  induction fuel generalizing x with
  | zero => simp [whileStartsAux]
  | succ f ih =>
    intro y hy
    by_cases hx : 0 < step ∧ x < dim
    · simp only [whileStartsAux, if_pos hx, List.mem_cons] at hy
      rcases hy with rfl | hy
      · exact hx.2
      · exact ih (x + step) y hy
    · rw [whileStartsAux_nil step (f + 1) dim x hx] at hy
      simp at hy

/-- The loop visits at least one offset when it starts inside the image
(with sufficient fuel). -/
lemma whileStartsAux_length_pos (step fuel dim x : Nat) (hs : 0 < step)
    (hx : x < dim) (hf : dim - x ≤ fuel) :
    0 < (whileStartsAux step fuel dim x).length := by
  cases fuel with
  | zero => omega
  | succ f =>
    simp [whileStartsAux, if_pos (show 0 < step ∧ x < dim from ⟨hs, hx⟩)]

/-- Every point from the loop start up to the boundary is covered by some
visited offset's chunk span (with sufficient fuel, and a chunk at least as
large as the step). -/
lemma whileStartsAux_covers (step fuel dim chunk : Nat) (hs : 0 < step)
    (hsc : step ≤ chunk) :
    ∀ (x : Nat) (hf : dim - x ≤ fuel) (p : Nat), x ≤ p → p < dim →
      ∃ y ∈ whileStartsAux step fuel dim x, y ≤ p ∧ p < min (y + chunk) dim := by
  induction fuel with
  | zero => intro x hf p hxp hpd; omega
  | succ f ih =>
    intro x hf p hxp hpd
    have hx : x < dim := by omega
    simp only [whileStartsAux, if_pos (show 0 < step ∧ x < dim from ⟨hs, hx⟩)]
    by_cases hp : p < min (x + chunk) dim
    · exact ⟨x, List.mem_cons_self _ _, hxp, hp⟩
    · push_neg at hp
      have hcp : x + step ≤ p := by omega
      obtain ⟨y, hy, h1, h2⟩ := ih (x + step) (by omega) p hcp hpd
      exact ⟨y, List.mem_cons_of_mem _ hy, h1, h2⟩

/-- When the whole dimension fits within one step, the loop visits exactly
the offset 0. -/
lemma whileStarts_singleton (dim step : Nat) (hd : 0 < dim) (hds : dim ≤ step) :
    whileStarts dim step = [0] := by
  unfold whileStarts
  cases dim with
  | zero => omega
  | succ d =>
    simp only [whileStartsAux,
      if_pos (show 0 < step ∧ 0 < d + 1 from ⟨by omega, by omega⟩)]
    rw [whileStartsAux_nil step d (d + 1) (0 + step) (by omega)]

/-- Flat-mapping singletons is mapping. -/
lemma flatMap_single {α β : Type _} (l : List α) (f : α → β) :
    (l.flatMap fun y => [f y]) = l.map f := by
  induction l with
  | nil => rfl
  | cons a t ih => simp [List.flatMap_cons, ih]

/-- Index-level facts for one chunking loop of `create_image_chunks`:
the visited offsets are non-empty, are `i * step`, stay inside the image,
and their chunk spans cover `[0, dim)`. -/
lemma chunk_index_props (dim chunk ov : Nat) (hoc : ov < chunk) (hd : 0 < dim) :
    whileStarts dim (chunk - ov) ≠ [] ∧
    (∀ (i : Nat) (hi : i < (whileStarts dim (chunk - ov)).length),
      (whileStarts dim (chunk - ov))[i] = i * (chunk - ov)) ∧
    (∀ y ∈ whileStarts dim (chunk - ov), y < dim) ∧
    (∀ p : Nat, p < dim → ∃ y ∈ whileStarts dim (chunk - ov),
      y ≤ p ∧ p < min (y + chunk) dim) := by
  have hs : 0 < chunk - ov := by omega
  refine ⟨?_, ?_, ?_, ?_⟩
  · apply List.ne_nil_of_length_pos
    exact whileStartsAux_length_pos (chunk - ov) dim dim 0 hs hd (by omega)
  · intro i hi
    have := whileStartsAux_getElem (chunk - ov) dim dim 0 i hi
    simpa using this
  · exact whileStartsAux_mem_lt (chunk - ov) dim dim 0
  · intro p hp
    exact whileStartsAux_covers (chunk - ov) dim dim chunk hs (by omega) 0
      (by omega) p (by omega) hp

/-- The horizontal branch of `split_image` in closed form (taken whenever
splitting fires and the height does not exceed its maximum). -/
lemma splitImageGeom_horizontal_tiles (w h mw mh ov thr : Int) (hh : h ≤ mh)
    (hsplit : (splitImageGeom w h mw mh ov thr).should_split = true) :
    (splitImageGeom w h mw mh ov thr).mode = .horizontal ∧
    (splitImageGeom w h mw mh ov thr).tiles =
      (List.range (1 + ceilPyDiv (max 0 (w - mw)) (mw - ov)).toNat).map fun (i : Nat) =>
        { x0 := (i : Int) * (mw - ov), y0 := 0,
          x1 := (i : Int) * (mw - ov) + min mw (w - (i : Int) * (mw - ov)),
          y1 := h } := by
  have heq : splitImageGeom w h mw mh ov thr =
      ⟨true, .horizontal,
        (List.range (1 + ceilPyDiv (max 0 (w - mw)) (mw - ov)).toNat).map fun (i : Nat) =>
          { x0 := (i : Int) * (mw - ov), y0 := 0,
            x1 := (i : Int) * (mw - ov) + min mw (w - (i : Int) * (mw - ov)),
            y1 := h }⟩ := by
    unfold splitImageGeom at hsplit ⊢
    by_cases hc : (decide (mw < w) || decide (mh < h) || splitAspectExceeds w h thr) = true
    · rw [if_pos hc]
      rw [if_neg (by omega : ¬(mw < w ∧ mh < h)), if_neg (by omega : ¬ mh < h)]
    · rw [if_neg hc] at hsplit
      simp at hsplit
  rw [heq]
  exact ⟨rfl, rfl⟩

/-- The vertical branch of `split_image` in closed form (taken whenever
the height exceeds its maximum and the width does not). -/
lemma splitImageGeom_vertical_tiles (w h mw mh ov thr : Int)
    (hw : w ≤ mw) (hv : mh < h) :
    (splitImageGeom w h mw mh ov thr).mode = .vertical ∧
    (splitImageGeom w h mw mh ov thr).tiles =
      (List.range (1 + ceilPyDiv (max 0 (h - mh)) (mh - ov)).toNat).map fun (i : Nat) =>
        { x0 := 0, y0 := (i : Int) * (mh - ov), x1 := w,
          y1 := (i : Int) * (mh - ov) + min mh (h - (i : Int) * (mh - ov)) } := by
  have heq : splitImageGeom w h mw mh ov thr =
      ⟨true, .vertical,
        (List.range (1 + ceilPyDiv (max 0 (h - mh)) (mh - ov)).toNat).map fun (i : Nat) =>
          { x0 := 0, y0 := (i : Int) * (mh - ov), x1 := w,
            y1 := (i : Int) * (mh - ov) + min mh (h - (i : Int) * (mh - ov)) }⟩ := by
    unfold splitImageGeom
    have hc : (decide (mw < w) || decide (mh < h) || splitAspectExceeds w h thr) = true := by
      simp [hv]
    rw [if_pos hc]
    rw [if_neg (by omega : ¬(mw < w ∧ mh < h)), if_pos hv]
  rw [heq]
  exact ⟨rfl, rfl⟩

/-- `create_image_chunks` in closed form for a single-row (horizontal
strip) split: the height fits within one vertical step. -/
lemma createChunksGeom_row (w h cw ch ov : Nat) (hh0 : 0 < h)
    (hrow : h ≤ ch - ov) :
    createChunksGeom w h cw ch ov =
      (whileStarts w (cw - ov)).map fun x =>
        { x_offset := x, y_offset := 0, x_end := min (x + cw) w, y_end := h } := by
  unfold createChunksGeom
  dsimp only
  rw [whileStarts_singleton h (ch - ov) hh0 hrow]
  have hch : min ch h = h := min_eq_right (by omega)
  simp [hch]

/-- `create_image_chunks` in closed form for a single-column (vertical
strip) split: the width fits within one horizontal step. -/
lemma createChunksGeom_col (w h cw ch ov : Nat) (hw0 : 0 < w)
    (hcol : w ≤ cw - ov) :
    createChunksGeom w h cw ch ov =
      (whileStarts h (ch - ov)).map fun y =>
        { x_offset := 0, y_offset := y, x_end := w, y_end := min (y + ch) h } := by
  unfold createChunksGeom
  dsimp only
  rw [whileStarts_singleton w (cw - ov) hw0 hcol]
  have hcw : min cw w = w := min_eq_right (by omega)
  simp only [List.map_cons, List.map_nil, zero_add, hcw]
  exact flatMap_single _ _

/-- Strip properties of the horizontal branch of `split_image`: tiles span
the full height, stay inside the image, cover the full width pointwise,
and consecutive tiles overlap by exactly `ov` pixels. -/
lemma split_horizontal_strip_props (w h mw mh ov thr : Int)
    (hov : 0 ≤ ov) (hto : ov < mw) (hh : h ≤ mh)
    (hsplit : (splitImageGeom w h mw mh ov thr).should_split = true) :
    (splitImageGeom w h mw mh ov thr).mode = .horizontal ∧
    (splitImageGeom w h mw mh ov thr).tiles ≠ [] ∧
    (∀ t ∈ (splitImageGeom w h mw mh ov thr).tiles,
      0 ≤ t.x0 ∧ t.x1 ≤ w ∧ t.y0 = 0 ∧ t.y1 = h) ∧
    (∀ p : Int, 0 ≤ p → p < w →
      ∃ t ∈ (splitImageGeom w h mw mh ov thr).tiles, t.x0 ≤ p ∧ p < t.x1) ∧
    (∀ (i : Nat) (a b : TileBox),
      (splitImageGeom w h mw mh ov thr).tiles[i]? = some a →
      (splitImageGeom w h mw mh ov thr).tiles[i + 1]? = some b →
      b.x0 ≤ a.x1 ∧ a.x1 - b.x0 = ov) := by
  obtain ⟨hmode, htiles⟩ := splitImageGeom_horizontal_tiles w h mw mh ov thr hh hsplit
  obtain ⟨hn1, hpair, hcov⟩ := strip_index_props w mw ov hov hto
  refine ⟨hmode, ?_, ?_, ?_, ?_⟩
  · rw [htiles]
    apply List.ne_nil_of_length_pos
    simp only [List.length_map, List.length_range]
    omega
  · intro t ht
    rw [htiles] at ht
    obtain ⟨i, hir, rfl⟩ := List.mem_map.mp ht
    refine ⟨mul_nonneg (Int.natCast_nonneg i) (by omega), ?_, rfl, rfl⟩
    have hmr := min_le_right mw (w - (i : Int) * (mw - ov))
    dsimp only
    linarith
  · intro p hp0 hpw
    obtain ⟨i, hin, hfi, hgi⟩ := hcov p hp0 hpw
    rw [htiles]
    exact ⟨{ x0 := (i : Int) * (mw - ov), y0 := 0,
             x1 := (i : Int) * (mw - ov) + min mw (w - (i : Int) * (mw - ov)),
             y1 := h },
           List.mem_map.mpr ⟨i, List.mem_range.mpr hin, rfl⟩, hfi, hgi⟩
  · intro i a b ha hb
    rw [htiles] at ha hb
    rw [List.getElem?_map] at ha hb
    rcases hra : (List.range (1 + ceilPyDiv (max 0 (w - mw)) (mw - ov)).toNat)[i]? with
      _ | v
    · rw [hra] at ha
      cases ha
    rcases hrb : (List.range (1 + ceilPyDiv (max 0 (w - mw)) (mw - ov)).toNat)[i + 1]? with
      _ | u
    · rw [hrb] at hb
      cases hb
    rw [hra] at ha
    rw [hrb] at hb
    have hiv : v = i ∧ i < (1 + ceilPyDiv (max 0 (w - mw)) (mw - ov)).toNat := by
      have h1 := List.getElem?_eq_some_iff.mp hra
      obtain ⟨hlt, hv⟩ := h1
      simp only [List.length_range] at hlt
      rw [List.getElem_range] at hv
      exact ⟨hv.symm, hlt⟩
    have hiu : u = i + 1 ∧ i + 1 < (1 + ceilPyDiv (max 0 (w - mw)) (mw - ov)).toNat := by
      have h1 := List.getElem?_eq_some_iff.mp hrb
      obtain ⟨hlt, hv⟩ := h1
      simp only [List.length_range] at hlt
      rw [List.getElem_range] at hv
      exact ⟨hv.symm, hlt⟩
    obtain ⟨rfl, _⟩ := hiv
    obtain ⟨rfl, hn⟩ := hiu
    simp only [Option.map_some', Option.some.injEq] at ha hb
    subst ha
    subst hb
    obtain ⟨hA, hB⟩ := hpair v hn
    constructor
    · dsimp only
      push_cast
      linarith
    · dsimp only
      push_cast
      linarith

/-- Strip properties of the vertical branch of `split_image`: tiles span
the full width, stay inside the image, cover the full height pointwise,
and consecutive tiles overlap by exactly `ov` pixels. -/
lemma split_vertical_strip_props (w h mw mh ov thr : Int)
    (hov : 0 ≤ ov) (hto : ov < mh) (hw : w ≤ mw) (hv : mh < h) :
    (splitImageGeom w h mw mh ov thr).mode = .vertical ∧
    (splitImageGeom w h mw mh ov thr).tiles ≠ [] ∧
    (∀ t ∈ (splitImageGeom w h mw mh ov thr).tiles,
      0 ≤ t.y0 ∧ t.y1 ≤ h ∧ t.x0 = 0 ∧ t.x1 = w) ∧
    (∀ p : Int, 0 ≤ p → p < h →
      ∃ t ∈ (splitImageGeom w h mw mh ov thr).tiles, t.y0 ≤ p ∧ p < t.y1) ∧
    (∀ (i : Nat) (a b : TileBox),
      (splitImageGeom w h mw mh ov thr).tiles[i]? = some a →
      (splitImageGeom w h mw mh ov thr).tiles[i + 1]? = some b →
      b.y0 ≤ a.y1 ∧ a.y1 - b.y0 = ov) := by
  obtain ⟨hmode, htiles⟩ := splitImageGeom_vertical_tiles w h mw mh ov thr hw hv
  obtain ⟨hn1, hpair, hcov⟩ := strip_index_props h mh ov hov hto
  refine ⟨hmode, ?_, ?_, ?_, ?_⟩
  · rw [htiles]
    apply List.ne_nil_of_length_pos
    simp only [List.length_map, List.length_range]
    omega
  · intro t ht
    rw [htiles] at ht
    obtain ⟨i, hir, rfl⟩ := List.mem_map.mp ht
    refine ⟨mul_nonneg (Int.natCast_nonneg i) (by omega), ?_, rfl, rfl⟩
    have hmr := min_le_right mh (h - (i : Int) * (mh - ov))
    dsimp only
    linarith
  · intro p hp0 hph
    obtain ⟨i, hin, hfi, hgi⟩ := hcov p hp0 hph
    rw [htiles]
    exact ⟨{ x0 := 0, y0 := (i : Int) * (mh - ov), x1 := w,
             y1 := (i : Int) * (mh - ov) + min mh (h - (i : Int) * (mh - ov)) },
           List.mem_map.mpr ⟨i, List.mem_range.mpr hin, rfl⟩, hfi, hgi⟩
  · intro i a b ha hb
    rw [htiles] at ha hb
    rw [List.getElem?_map] at ha hb
    rcases hra : (List.range (1 + ceilPyDiv (max 0 (h - mh)) (mh - ov)).toNat)[i]? with
      _ | v
    · rw [hra] at ha
      cases ha
    rcases hrb : (List.range (1 + ceilPyDiv (max 0 (h - mh)) (mh - ov)).toNat)[i + 1]? with
      _ | u
    · rw [hrb] at hb
      cases hb
    rw [hra] at ha
    rw [hrb] at hb
    have hiv : v = i ∧ i < (1 + ceilPyDiv (max 0 (h - mh)) (mh - ov)).toNat := by
      have h1 := List.getElem?_eq_some_iff.mp hra
      obtain ⟨hlt, hv1⟩ := h1
      simp only [List.length_range] at hlt
      rw [List.getElem_range] at hv1
      exact ⟨hv1.symm, hlt⟩
    have hiu : u = i + 1 ∧ i + 1 < (1 + ceilPyDiv (max 0 (h - mh)) (mh - ov)).toNat := by
      have h1 := List.getElem?_eq_some_iff.mp hrb
      obtain ⟨hlt, hv1⟩ := h1
      simp only [List.length_range] at hlt
      rw [List.getElem_range] at hv1
      exact ⟨hv1.symm, hlt⟩
    obtain ⟨rfl, _⟩ := hiv
    obtain ⟨rfl, hn⟩ := hiu
    simp only [Option.map_some', Option.some.injEq] at ha hb
    subst ha
    subst hb
    obtain ⟨hA, hB⟩ := hpair v hn
    constructor
    · dsimp only
      push_cast
      linarith
    · dsimp only
      push_cast
      linarith

/-- Strip properties of a single-row `create_image_chunks` split: chunks
span the full height, stay inside the image, cover the full width
pointwise, and consecutive chunks overlap by `min ov (w - next_offset)`:
at most `ov` pixels, and exactly `ov` away from the right boundary. -/
lemma chunks_row_props (w h cw ch ov : Nat)
    (hoc : ov < cw) (hw0 : 0 < w) (hh0 : 0 < h) (hrow : h ≤ ch - ov) :
    createChunksGeom w h cw ch ov ≠ [] ∧
    (∀ c ∈ createChunksGeom w h cw ch ov,
      c.x_end ≤ w ∧ c.y_offset = 0 ∧ c.y_end = h) ∧
    (∀ p : Nat, p < w → ∃ c ∈ createChunksGeom w h cw ch ov,
      c.x_offset ≤ p ∧ p < c.x_end) ∧
    (∀ (i : Nat) (a b : ChunkBox),
      (createChunksGeom w h cw ch ov)[i]? = some a →
      (createChunksGeom w h cw ch ov)[i + 1]? = some b →
      b.x_offset ≤ a.x_end ∧ a.x_end - b.x_offset ≤ ov ∧
      a.x_end - b.x_offset = min ov (w - b.x_offset)) := by
  have hrw := createChunksGeom_row w h cw ch ov hh0 hrow
  obtain ⟨hne, hget, hmlt, hcov⟩ := chunk_index_props w cw ov hoc hw0
  refine ⟨?_, ?_, ?_, ?_⟩
  · rw [hrw]
    apply List.ne_nil_of_length_pos
    simpa using List.length_pos.mpr hne
  · intro c hc
    rw [hrw] at hc
    obtain ⟨y, hy, rfl⟩ := List.mem_map.mp hc
    exact ⟨min_le_right _ _, rfl, rfl⟩
  · intro p hp
    obtain ⟨y, hy, h1, h2⟩ := hcov p hp
    rw [hrw]
    exact ⟨{ x_offset := y, y_offset := 0, x_end := min (y + cw) w, y_end := h },
           List.mem_map.mpr ⟨y, hy, rfl⟩, h1, h2⟩
  · intro i a b ha hb
    rw [hrw] at ha hb
    rw [List.getElem?_map] at ha hb
    rcases hra : (whileStarts w (cw - ov))[i]? with _ | v
    · rw [hra] at ha
      cases ha
    rcases hrb : (whileStarts w (cw - ov))[i + 1]? with _ | u
    · rw [hrb] at hb
      cases hb
    rw [hra] at ha
    rw [hrb] at hb
    simp only [Option.map_some', Option.some.injEq] at ha hb
    subst ha
    subst hb
    obtain ⟨hlti, hvi⟩ := List.getElem?_eq_some_iff.mp hra
    obtain ⟨hltu, hvu⟩ := List.getElem?_eq_some_iff.mp hrb
    have s1 := hget i hlti
    have s2 := hget (i + 1) hltu
    have hAB : u = v + (cw - ov) := by
      rw [← hvi, ← hvu, s1, s2]
      ring
    have hlt : u < w := by
      rw [← hvu]
      exact hmlt _ (List.getElem_mem _)
    refine ⟨?_, ?_, ?_⟩ <;> dsimp only <;> omega

/-- Strip properties of a single-column `create_image_chunks` split:
chunks span the full width, stay inside the image, cover the full height
pointwise, and consecutive chunks overlap by `min ov (h - next_offset)`:
at most `ov` pixels, and exactly `ov` away from the bottom boundary. -/
lemma chunks_col_props (w h cw ch ov : Nat)
    (hoc : ov < ch) (hw0 : 0 < w) (hh0 : 0 < h) (hcol : w ≤ cw - ov) :
    createChunksGeom w h cw ch ov ≠ [] ∧
    (∀ c ∈ createChunksGeom w h cw ch ov,
      c.y_end ≤ h ∧ c.x_offset = 0 ∧ c.x_end = w) ∧
    (∀ p : Nat, p < h → ∃ c ∈ createChunksGeom w h cw ch ov,
      c.y_offset ≤ p ∧ p < c.y_end) ∧
    (∀ (i : Nat) (a b : ChunkBox),
      (createChunksGeom w h cw ch ov)[i]? = some a →
      (createChunksGeom w h cw ch ov)[i + 1]? = some b →
      b.y_offset ≤ a.y_end ∧ a.y_end - b.y_offset ≤ ov ∧
      a.y_end - b.y_offset = min ov (h - b.y_offset)) := by
  have hrw := createChunksGeom_col w h cw ch ov hw0 hcol
  obtain ⟨hne, hget, hmlt, hcov⟩ := chunk_index_props h ch ov hoc hh0
  refine ⟨?_, ?_, ?_, ?_⟩
  · rw [hrw]
    apply List.ne_nil_of_length_pos
    simpa using List.length_pos.mpr hne
  · intro c hc
    rw [hrw] at hc
    obtain ⟨y, hy, rfl⟩ := List.mem_map.mp hc
    exact ⟨min_le_right _ _, rfl, rfl⟩
  · intro p hp
    obtain ⟨y, hy, h1, h2⟩ := hcov p hp
    rw [hrw]
    exact ⟨{ x_offset := 0, y_offset := y, x_end := w, y_end := min (y + ch) h },
           List.mem_map.mpr ⟨y, hy, rfl⟩, h1, h2⟩
  · intro i a b ha hb
    rw [hrw] at ha hb
    rw [List.getElem?_map] at ha hb
    rcases hra : (whileStarts h (ch - ov))[i]? with _ | v
    · rw [hra] at ha
      cases ha
    rcases hrb : (whileStarts h (ch - ov))[i + 1]? with _ | u
    · rw [hrb] at hb
      cases hb
    rw [hra] at ha
    rw [hrb] at hb
    simp only [Option.map_some', Option.some.injEq] at ha hb
    subst ha
    subst hb
    obtain ⟨hlti, hvi⟩ := List.getElem?_eq_some_iff.mp hra
    obtain ⟨hltu, hvu⟩ := List.getElem?_eq_some_iff.mp hrb
    have s1 := hget i hlti
    have s2 := hget (i + 1) hltu
    have hAB : u = v + (ch - ov) := by
      rw [← hvi, ← hvu, s1, s2]
      ring
    have hlt : u < h := by
      rw [← hvu]
      exact hmlt _ (List.getElem_mem _)
    refine ⟨?_, ?_, ?_⟩ <;> dsimp only <;> omega

/-- C3 counterexample: a 4950x1000 image chunked by `create_image_chunks`
with the fixed 2550x3300 chunk size and overlap 100 is a strip split
(width alone exceeds), yet the final chunk `[4900, 4950)` overlaps its
predecessor `[2450, 4950)` by only 50 pixels - less than `overlap`,
falsifying the claimed "exactly `overlap`, except the final tile may
overlap by more (never less)". -/
theorem C3_counterexample :
    needsChunking 4950 1000 2550 3300 = true ∧
    createChunksGeom 4950 1000 2550 3300 100 =
      [{ x_offset := 0, y_offset := 0, x_end := 2550, y_end := 1000 },
       { x_offset := 2450, y_offset := 0, x_end := 4950, y_end := 1000 },
       { x_offset := 4900, y_offset := 0, x_end := 4950, y_end := 1000 }] ∧
    ((createChunksGeom 4950 1000 2550 3300 100)[1]?.map fun c => c.x_end) =
      some 4950 ∧
    ((createChunksGeom 4950 1000 2550 3300 100)[2]?.map fun c => c.x_offset) =
      some 4900 ∧
    4950 - 4900 < 100 := by
  decide

/-- C3 (amended): for every image that triggers a strip split (with
overlap smaller than the tile size on the split axis), the union of the
produced tiles' spans along the split axis exactly covers `[0, dimension)`
with no gaps.  In `split_image` every pair of consecutive tiles overlaps
by exactly `overlap` pixels (the final tile shrinks instead of shifting,
so it never overlaps by more).  In `create_image_chunks` consecutive
chunks overlap by `min overlap (dimension - next_offset)`: exactly
`overlap` pixels except that the final chunk may overlap its predecessor
by less (never more). -/
theorem C3_strip_cover_and_overlap :
    (∀ w h mw mh ov thr : Int, 0 ≤ ov → ov < mw → h ≤ mh →
      (splitImageGeom w h mw mh ov thr).should_split = true →
      (splitImageGeom w h mw mh ov thr).mode = .horizontal ∧
      (splitImageGeom w h mw mh ov thr).tiles ≠ [] ∧
      (∀ t ∈ (splitImageGeom w h mw mh ov thr).tiles,
        0 ≤ t.x0 ∧ t.x1 ≤ w ∧ t.y0 = 0 ∧ t.y1 = h) ∧
      (∀ p : Int, 0 ≤ p → p < w →
        ∃ t ∈ (splitImageGeom w h mw mh ov thr).tiles, t.x0 ≤ p ∧ p < t.x1) ∧
      (∀ (i : Nat) (a b : TileBox),
        (splitImageGeom w h mw mh ov thr).tiles[i]? = some a →
        (splitImageGeom w h mw mh ov thr).tiles[i + 1]? = some b →
        b.x0 ≤ a.x1 ∧ a.x1 - b.x0 = ov)) ∧
    (∀ w h mw mh ov thr : Int, 0 ≤ ov → ov < mh → w ≤ mw → mh < h →
      (splitImageGeom w h mw mh ov thr).mode = .vertical ∧
      (splitImageGeom w h mw mh ov thr).tiles ≠ [] ∧
      (∀ t ∈ (splitImageGeom w h mw mh ov thr).tiles,
        0 ≤ t.y0 ∧ t.y1 ≤ h ∧ t.x0 = 0 ∧ t.x1 = w) ∧
      (∀ p : Int, 0 ≤ p → p < h →
        ∃ t ∈ (splitImageGeom w h mw mh ov thr).tiles, t.y0 ≤ p ∧ p < t.y1) ∧
      (∀ (i : Nat) (a b : TileBox),
        (splitImageGeom w h mw mh ov thr).tiles[i]? = some a →
        (splitImageGeom w h mw mh ov thr).tiles[i + 1]? = some b →
        b.y0 ≤ a.y1 ∧ a.y1 - b.y0 = ov)) ∧
    (∀ w h cw ch ov : Nat, ov < cw → 0 < w → 0 < h → h ≤ ch - ov →
      createChunksGeom w h cw ch ov ≠ [] ∧
      (∀ c ∈ createChunksGeom w h cw ch ov,
        c.x_end ≤ w ∧ c.y_offset = 0 ∧ c.y_end = h) ∧
      (∀ p : Nat, p < w → ∃ c ∈ createChunksGeom w h cw ch ov,
        c.x_offset ≤ p ∧ p < c.x_end) ∧
      (∀ (i : Nat) (a b : ChunkBox),
        (createChunksGeom w h cw ch ov)[i]? = some a →
        (createChunksGeom w h cw ch ov)[i + 1]? = some b →
        b.x_offset ≤ a.x_end ∧ a.x_end - b.x_offset ≤ ov ∧
        a.x_end - b.x_offset = min ov (w - b.x_offset))) ∧
    (∀ w h cw ch ov : Nat, ov < ch → 0 < w → 0 < h → w ≤ cw - ov →
      createChunksGeom w h cw ch ov ≠ [] ∧
      (∀ c ∈ createChunksGeom w h cw ch ov,
        c.y_end ≤ h ∧ c.x_offset = 0 ∧ c.x_end = w) ∧
      (∀ p : Nat, p < h → ∃ c ∈ createChunksGeom w h cw ch ov,
        c.y_offset ≤ p ∧ p < c.y_end) ∧
      (∀ (i : Nat) (a b : ChunkBox),
        (createChunksGeom w h cw ch ov)[i]? = some a →
        (createChunksGeom w h cw ch ov)[i + 1]? = some b →
        b.y_offset ≤ a.y_end ∧ a.y_end - b.y_offset ≤ ov ∧
        a.y_end - b.y_offset = min ov (h - b.y_offset))) :=
  ⟨split_horizontal_strip_props, split_vertical_strip_props,
   chunks_row_props, chunks_col_props⟩

/-- Witness for C3 (amended), applying each part at a concrete strip
split: a 5100x3300 horizontal split and a 100x5000 vertical split of the
splitter, and a 4950x1000 single-row and 1000x7000 single-column run of
the chunker. -/
theorem C3_strip_cover_and_overlap_witness :
    (splitImageGeom 5100 3300 2550 3300 100 5).mode = .horizontal ∧
    (splitImageGeom 100 5000 2550 3300 100 5).mode = .vertical ∧
    createChunksGeom 4950 1000 2550 3300 100 ≠ [] ∧
    createChunksGeom 1000 7000 2550 3300 100 ≠ [] :=
  ⟨(C3_strip_cover_and_overlap.1 5100 3300 2550 3300 100 5
      (by decide) (by decide) (by decide) (by decide)).1,
   (C3_strip_cover_and_overlap.2.1 100 5000 2550 3300 100 5
      (by decide) (by decide) (by decide) (by decide)).1,
   (C3_strip_cover_and_overlap.2.2.1 4950 1000 2550 3300 100
      (by decide) (by decide) (by decide) (by decide)).1,
   (C3_strip_cover_and_overlap.2.2.2 1000 7000 2550 3300 100
      (by decide) (by decide) (by decide) (by decide)).1⟩
